import Mathlib

/-!
Verification of the Great Library orchestration core: a shallow embedding of
the cache store (src/lib/cache.ts), the ask orchestrator (src/lib/ask.ts),
the upload orchestrator (src/lib/upload.ts, src/hooks/useFileUpload.ts) and
the store resolver (src/lib/file-search.ts), together with theorems settling
the specification claims about them.

Conventions of the embedding:
- JavaScript strings are Lean `String`s.  The JS primitives
  `String.prototype.split("/")` and `String.prototype.trim` are embedded at
  the character-list level (`splitSegs`, `jsTrim`) so that they compute by
  kernel reduction; they implement exactly the splitting/trimming behaviour
  the source relies on.
- `undefined`/absent optional fields are `Option.none`; the JS `??` operator
  is a match on that option; JS truthiness tests on strings additionally
  treat `""` as false, and are embedded as explicit `= ""` tests.
- Asynchronous remote calls are modelled by an environment record that fixes
  each remote result (success value or thrown error), and every orchestration
  function threads the cache state and a log of the remote calls it issued,
  returning `Except` for thrown errors.
- `JSON.parse` of the persisted cache blob is modelled by `PersistedBlob`,
  which distinguishes a missing blob, an unparsable blob, and a parsed value
  whose `documents` field is or is not an array.
-/

namespace GreatLibrary

/-- Embedding of JavaScript `s.split("/")` at the character level: splits a
character list on the slash character, never returning an empty list (the
split of the empty string is `[[]]`, as in JS). -/
def splitSegs : List Char → List (List Char)
  | [] => [[]]
  | c :: rest =>
      if c = '/' then [] :: splitSegs rest
      else
        match splitSegs rest with
        | [] => [[c]]
        | seg :: segs => (c :: seg) :: segs

/-- Embedding of `documentName.split("/").pop() ?? documentName`: the last
slash-separated segment of a string (JS `split` always yields at least one
element, so the `??` fallback never fires). -/
def lastSegment (s : String) : String :=
  String.mk (((splitSegs s.data).getLast?).getD s.data)

/-- Embedding of JavaScript `String.prototype.trim`: drop whitespace from
both ends, at the character level so it computes by kernel reduction. -/
def jsTrim (s : String) : String :=
  String.mk (((s.data.dropWhile Char.isWhitespace).reverse.dropWhile Char.isWhitespace).reverse)

/-- Upload status of a cached document (src/lib/types.ts `UploadStatus`). -/
inductive UploadStatus
  | pending
  | uploading
  | processing
  | indexed
  | error
  deriving DecidableEq

/-- A cached document record (src/lib/types.ts `StoredDocument`).  The
optional `metadata` map is embedded as an association list. -/
structure StoredDocument where
  id : String
  name : String
  uploadDate : String
  size : Nat
  status : UploadStatus
  metadata : Option (List (String × String))
  deriving DecidableEq

/-- The persisted cache state (src/lib/types.ts `CacheState`). -/
structure CacheState where
  fileSearchStoreId : Option String
  documents : List StoredDocument
  deriving DecidableEq

/-- The raw persisted blob as seen by `readState` (src/lib/cache.ts): the
`LocalStorage` item may be absent (or empty, both falsy in JS), may fail
`JSON.parse`, or may parse to an object whose `documents` field is an array
of documents (`some docs`) or anything else (`none`). -/
inductive PersistedBlob
  | missing
  | unparsable
  | parsed (fileSearchStoreId : Option String) (documents : Option (List StoredDocument))
  deriving DecidableEq

/-- Embedding of `readState` (src/lib/cache.ts lines 29-45): deserialize the
single persisted blob; on missing or malformed data return the empty default
state; on parsed data take `documents` only when it is an array. -/
def readState : PersistedBlob → CacheState
  | .missing => { fileSearchStoreId := none, documents := [] }
  | .unparsable => { fileSearchStoreId := none, documents := [] }
  | .parsed sid docs => { fileSearchStoreId := sid, documents := docs.getD [] }

/-- Embedding of `getDocuments` (src/lib/cache.ts lines 70-73): the
documents of the deserialized state. -/
def getDocuments (blob : PersistedBlob) : List StoredDocument :=
  (readState blob).documents

/-- Embedding of one `map.set(doc.id, doc)` step on a JS `Map` represented
as a list in key-insertion order: overwrite in place when the id is already
present, append otherwise. -/
def mapSet (m : List StoredDocument) (d : StoredDocument) : List StoredDocument :=
  if m.any (fun e => decide (e.id = d.id)) then
    m.map (fun e => if e.id = d.id then d else e)
  else
    m ++ [d]

/-- Embedding of the sort comparator in `upsertDocuments`
(`(a, b) => (a.uploadDate < b.uploadDate ? 1 : -1)`): `a` is kept before `b`
exactly when the comparator is non-positive, i.e. when
`¬ a.uploadDate < b.uploadDate`. -/
def docLE (a b : StoredDocument) : Bool :=
  !(decide (a.uploadDate < b.uploadDate))

/-- Embedding of `upsertDocuments` (src/lib/cache.ts lines 75-89): merge the
cached documents with the new ones by id (new documents overwrite), sort the
merged values by `uploadDate` descending, write the result back, and return
the new full list. -/
def upsertDocuments (st : CacheState) (newDocs : List StoredDocument) :
    CacheState × List StoredDocument :=
  let nextList := ((st.documents ++ newDocs).foldl mapSet []).mergeSort docLE
  ({ st with documents := nextList }, nextList)

/-- Embedding of `replaceDocuments` (src/lib/cache.ts lines 91-96): replace
the whole document list of the persisted state. -/
def replaceDocuments (st : CacheState) (documents : List StoredDocument) : CacheState :=
  { st with documents := documents }

/-- Embedding of `setFileSearchStoreId` (src/lib/cache.ts lines 63-68). -/
def setFileSearchStoreId (st : CacheState) (id : String) : CacheState :=
  { st with fileSearchStoreId := some id }

/-- A document list is sorted by `uploadDate` descending when no earlier
element has a strictly smaller `uploadDate` than a later one. -/
def sortedByUploadDateDesc (l : List StoredDocument) : Prop :=
  l.Pairwise (fun a b => ¬ a.uploadDate < b.uploadDate)

/-- A part of a conversation turn (the `text` fragment of the vendor `Part`
type used by the source). -/
structure GenPart where
  text : Option String
  deriving DecidableEq

/-- A conversation turn (the vendor `Content` type: optional role and
optional list of parts). -/
structure GenContent where
  role : Option String
  parts : Option (List GenPart)
  deriving DecidableEq

/-- The rag chunk of a retrieved context (vendor type, only its `text` field
is read by the source). -/
structure RagChunk where
  text : Option String
  deriving DecidableEq

/-- A retrieved-context payload of a grounding chunk (vendor type; the
fields the source reads). -/
structure RetrievedContext where
  documentName : Option String
  title : Option String
  uri : Option String
  text : Option String
  ragChunk : Option RagChunk
  deriving DecidableEq

/-- A grounding chunk (vendor type; only `retrievedContext` is used for
citation extraction). -/
structure GroundingChunk where
  retrievedContext : Option RetrievedContext
  deriving DecidableEq

/-- The grounding metadata of a response candidate (vendor type; only the
chunk list is used for citation extraction). -/
structure GroundingMetadata where
  groundingChunks : Option (List GroundingChunk)
  deriving DecidableEq

/-- Citation dedup keys: the JS code uses a string key (parsed document id
or context URI) or a freshly generated `randomUUID()`; fresh UUIDs are
modelled by a counter, distinct from every string key and from each other. -/
inductive BaseId
  | str (s : String)
  | fresh (n : Nat)
  deriving DecidableEq

/-- A citation entry (src/lib/ask.ts `CitationEntry`). -/
structure CitationEntry where
  id : BaseId
  documentId : Option String
  documentName : String
  snippet : Option String
  uri : Option String
  deriving DecidableEq

/-- Embedding of the document-id computation inside `extractCitations`
(src/lib/ask.ts line 190): `context.documentName` must be truthy (present
and non-empty), and then its last path segment is taken. -/
def resolveDocumentId (ctx : RetrievedContext) : Option String :=
  match ctx.documentName with
  | some dn => if dn = "" then none else some (lastSegment dn)
  | none => none

/-- Embedding of the snippet computation inside `extractCitations`
(src/lib/ask.ts line 194): `context.ragChunk?.text ?? context.text`. -/
def snippetOf (ctx : RetrievedContext) : Option String :=
  match ctx.ragChunk with
  | some rc =>
      match rc.text with
      | some t => some t
      | none => ctx.text
  | none => ctx.text

/-- JS truthiness of an optional string: falsy when absent or empty. -/
def falsyStr : Option String → Bool
  | none => true
  | some s => decide (s = "")

/-- Embedding of `new Map(documents.map((doc) => [doc.id, doc]))` followed by
`docMap.get(i)`: the last document with the given id wins, as later entries
overwrite earlier ones during `Map` construction. -/
def docMapGet (docs : List StoredDocument) (i : String) : Option StoredDocument :=
  docs.foldl (fun acc d => if d.id = i then some d else acc) none

/-- Embedding of the dedup-key computation inside `extractCitations`
(src/lib/ask.ts line 191): parsed document id, else context URI, else a
fresh `randomUUID()` (modelled by consuming the fresh counter). -/
def keyOf (ctx : RetrievedContext) (fresh : Nat) : BaseId × Nat :=
  match resolveDocumentId ctx with
  | some d => (.str d, fresh)
  | none =>
      match ctx.uri with
      | some u => (.str u, fresh)
      | none => (.fresh fresh, fresh + 1)

/-- Embedding of the friendly-name computation inside `extractCitations`
(src/lib/ask.ts line 200): `storedDoc?.name ?? context.title ?? documentId
?? "Document"`, where the cached-document lookup only happens when the
parsed document id is truthy. -/
def citationName (docs : List StoredDocument) (ctx : RetrievedContext)
    (documentId : Option String) : String :=
  let storedDoc :=
    match documentId with
    | some d => if d = "" then none else docMapGet docs d
    | none => none
  match storedDoc with
  | some sd => sd.name
  | none =>
      match ctx.title with
      | some t => t
      | none => documentId.getD "Document"

/-- Embedding of one iteration of the `for (const chunk of
metadata.groundingChunks)` loop of `extractCitations` (src/lib/ask.ts lines
184-207), acting on the citation map (kept in insertion order) and the
fresh-UUID counter. -/
def extractStep (docs : List StoredDocument) (acc : List CitationEntry × Nat)
    (chunk : GroundingChunk) : List CitationEntry × Nat :=
  match chunk.retrievedContext with
  | none => acc
  | some ctx =>
      let documentId := resolveDocumentId ctx
      let k := (keyOf ctx acc.2).1
      let fresh2 := (keyOf ctx acc.2).2
      let snippet := snippetOf ctx
      if k ∈ acc.1.map (fun e => e.id) then
        (acc.1.map (fun e =>
          if e.id = k ∧ falsyStr e.snippet = true ∧ falsyStr snippet = false then
            { e with snippet := snippet }
          else e), fresh2)
      else
        (acc.1 ++ [{ id := k, documentId := documentId,
                     documentName := citationName docs ctx documentId,
                     snippet := snippet, uri := ctx.uri }], fresh2)

/-- Embedding of `extractCitations` (src/lib/ask.ts lines 173-210): empty
when the metadata or its chunk list is absent or empty, otherwise the values
of the dedup map built by folding `extractStep` over the chunks. -/
def extractCitations (metadata : Option GroundingMetadata)
    (documents : List StoredDocument) : List CitationEntry :=
  match metadata with
  | none => []
  | some md =>
      match md.groundingChunks with
      | none => []
      | some [] => []
      | some chunks => (chunks.foldl (extractStep documents) ([], 0)).1

/-- The stream of dedup keys produced by a chunk list, threading the
fresh-UUID counter exactly as the extraction loop does (chunks without a
retrieved context produce no key). -/
def chunkKeys : List GroundingChunk → Nat → List BaseId
  | [], _ => []
  | c :: rest, n =>
      match c.retrievedContext with
      | none => chunkKeys rest n
      | some ctx => (keyOf ctx n).1 :: chunkKeys rest (keyOf ctx n).2

/-- Insert a key at the end of a key list unless it is already present:
the order skeleton of the citation dedup map. -/
def insertKey (ks : List BaseId) (k : BaseId) : List BaseId :=
  if k ∈ ks then ks else ks ++ [k]

/-- Default conversation window (src/lib/ask.ts line 47). -/
def DEFAULT_MAX_CONTEXT_MESSAGES : Nat := 10

/-- Embedding of `trimConversation` (src/lib/ask.ts lines 130-135): keep the
history unchanged when it fits the window, else `slice(length - max)`. -/
def trimConversation (history : List GenContent) (maxContextMessages : Nat) :
    List GenContent :=
  if history.length ≤ maxContextMessages then history
  else history.drop (history.length - maxContextMessages)

/-- The `result` argument of `appendModelResponse`: the fields of an ask
result it reads. -/
structure ModelResult where
  modelContent : Option GenContent
  answer : Option String
  deriving DecidableEq

/-- Embedding of `appendModelResponse` (src/lib/ask.ts lines 113-128):
empty histories are returned unchanged; otherwise a copy of the history is
extended with the structured model turn when present, else with a synthetic
text turn when the answer is truthy (present and non-empty), else with
nothing. -/
def appendModelResponse (history : List GenContent) (result : ModelResult) :
    List GenContent :=
  if history.length = 0 then history
  else
    match result.modelContent with
    | some mc => history ++ [{ role := some (mc.role.getD "model"), parts := mc.parts }]
    | none =>
        match result.answer with
        | some a =>
            if a = "" then history
            else history ++ [{ role := some "model", parts := some [{ text := some a }] }]
        | none => history

/-- Embedding of `extractText` (src/lib/ask.ts lines 162-171): `undefined`
when the content or its part list is absent or empty, else the truthy text
fragments joined with blank lines and trimmed. -/
def extractText (content : Option GenContent) : Option String :=
  match content with
  | none => none
  | some c =>
      match c.parts with
      | none => none
      | some [] => none
      | some ps =>
          some (jsTrim (String.intercalate "\n\n"
            (((ps.map (fun p => p.text)).filterMap id).filter (fun t => !(decide (t = ""))))))

/-- The upload size limit (src/lib/upload.ts line 9): 100 MiB. -/
def MAX_FILE_SIZE_BYTES : Nat := 100 * 1024 * 1024

/-- A selected file (src/lib/upload.ts `UploadableFile`). -/
structure UploadableFile where
  path : String
  name : String
  size : Nat
  mimeType : String
  deriving DecidableEq

/-- Embedding of `findOversizedFile` (src/lib/upload.ts lines 63-68): the
first file strictly larger than the limit, if any. -/
def findOversizedFile (files : List UploadableFile) (maxSizeBytes : Nat) :
    Option UploadableFile :=
  files.find? (fun f => decide (maxSizeBytes < f.size))

/-- Embedding of `parseDocumentId` (src/lib/upload.ts lines 121-123). -/
def parseDocumentId (documentName : String) : String :=
  lastSegment documentName

/-- A remote file-search store handle (vendor `FileSearchStore`: resource
name plus optional display name). -/
structure FileSearchStore where
  name : String
  displayName : Option String
  deriving DecidableEq

/-- The resolver result (src/lib/file-search.ts `CreateStoreResult`). -/
structure CreateStoreResult where
  id : String
  name : String
  displayName : Option String
  deriving DecidableEq

/-- Embedding of `parseStoreName` (src/lib/file-search.ts lines 15-25) on a
store object: the id is the last path segment of the resource name, and the
display name falls back to the given one. -/
def parseStoreName (store : FileSearchStore) (fallbackDisplayName : Option String) :
    CreateStoreResult :=
  { id := lastSegment store.name, name := store.name,
    displayName := match store.displayName with
      | some d => some d
      | none => fallbackDisplayName }

/-- One remote call issued by the orchestration layer; the functions below
log every remote call they perform, so the theorems can speak about which
remote operations were attempted. -/
inductive RemoteCall
  | getStore (name : String)
  | listStores
  | createStore (displayName : String)
  | uploadFile (storeName : String) (path : String)
  | generate (storeName : String)
  deriving DecidableEq

/-- The remote environment of the store resolver: the result each vendor
store operation would return (`Except.error` models a rejected promise),
plus the configured store display name from preferences. -/
structure StoreEnv where
  getStoreResult : Except String FileSearchStore
  listStoresResult : Except String (List FileSearchStore)
  createStoreResult : Except String FileSearchStore
  prefDisplayName : String

/-- Truthiness of the display-name match in `findExistingStore`
(src/lib/file-search.ts line 162): a store matches when it has no truthy
display name or its display name equals the configured one. -/
def storeMatches (s : FileSearchStore) (target : String) : Bool :=
  match s.displayName with
  | none => true
  | some d => decide (d = "") || decide (d = target)

/-- Embedding of `findExistingStore` (src/lib/file-search.ts lines 151-172):
on listing failure fall through with no store; otherwise the first listed
store with a truthy name whose display name matches. -/
def findExistingStore (env : StoreEnv) (target : String) : Option CreateStoreResult :=
  match env.listStoresResult with
  | .error _ => none
  | .ok stores =>
      (stores.find? (fun s => !(decide (s.name = "")) && storeMatches s target)).map
        (fun s => parseStoreName s none)

/-- Embedding of the cached-id branch of `ensureFileSearchStore`
(src/lib/file-search.ts lines 31-42): fetch `fileSearchStores/<cachedId>`
remotely; on success cache and return the parsed store, on failure return
the cached id with the constructed name optimistically. -/
def fetchCachedStore (env : StoreEnv) (st : CacheState) (log : List RemoteCall)
    (cachedId : String) :
    Except String CreateStoreResult × CacheState × List RemoteCall :=
  let name := "fileSearchStores/" ++ cachedId
  let log2 := log ++ [RemoteCall.getStore name]
  match env.getStoreResult with
  | .ok store =>
      let parsed := parseStoreName store none
      (.ok parsed, setFileSearchStoreId st parsed.id, log2)
  | .error _ => (.ok { id := cachedId, name := name, displayName := none }, st, log2)

/-- Embedding of the fall-through path of `ensureFileSearchStore`
(src/lib/file-search.ts lines 44-77): reuse the first matching listed
store, else create one (propagating creation failure). -/
def ensureStoreViaListOrCreate (env : StoreEnv) (st : CacheState) (log : List RemoteCall) :
    Except String CreateStoreResult × CacheState × List RemoteCall :=
  let target := env.prefDisplayName
  let log2 := log ++ [RemoteCall.listStores]
  match findExistingStore env target with
  | some existing => (.ok existing, setFileSearchStoreId st existing.id, log2)
  | none =>
      let createName := if target = "" then "Great Library" else target
      let log3 := log2 ++ [RemoteCall.createStore createName]
      match env.createStoreResult with
      | .ok store =>
          let parsed := parseStoreName store (some target)
          (.ok parsed, setFileSearchStoreId st parsed.id, log3)
      | .error e => (.error e, st, log3)

/-- Embedding of `ensureFileSearchStore` (src/lib/file-search.ts lines
27-77), threading the cache state and the remote-call log.  The source
guards the cached branch with the truthiness test `if (cachedId)`, so an
absent or empty cached id falls through to the list-then-create path. -/
def ensureFileSearchStore (env : StoreEnv) (st : CacheState) (log : List RemoteCall) :
    Except String CreateStoreResult × CacheState × List RemoteCall :=
  match st.fileSearchStoreId with
  | some cachedId =>
      if cachedId = "" then ensureStoreViaListOrCreate env st log
      else fetchCachedStore env st log cachedId
  | none => ensureStoreViaListOrCreate env st log

/-- The outcome the remote side produces for one uploaded file: the upload
request itself may reject, the polled operation may complete with an error
payload, or it completes carrying the optional response document name and
operation name from which the document id is derived. -/
inductive FileOutcome
  | uploadThrow (msg : String)
  | opError (payload : String)
  | succeeded (responseDocumentName : Option String) (opName : Option String)

/-- The remote environment of the upload orchestrator: the store-resolver
environment, the per-file outcome, and the wall clock used for the
`new Date().toISOString()` stamp of the file at each index. -/
structure UploadEnv where
  store : StoreEnv
  outcomes : Nat → FileOutcome
  nowAt : Nat → String

/-- Embedding of the sequential upload loop of `uploadFilesToLibrary`
(src/lib/upload.ts lines 85-111): upload each file in order, wait for its
operation, abort the whole batch on the first thrown error (an upload
rejection or an operation error payload), and otherwise accumulate a
document record with status `indexed`. -/
def uploadLoop (env : UploadEnv) (store : CreateStoreResult)
    (files : List UploadableFile) (i : Nat) (acc : List StoredDocument)
    (log : List RemoteCall) : Except String (List StoredDocument) × List RemoteCall :=
  match files with
  | [] => (.ok acc, log)
  | f :: rest =>
      let log2 := log ++ [RemoteCall.uploadFile store.name f.path]
      match env.outcomes i with
      | .uploadThrow msg => (.error msg, log2)
      | .opError payload => (.error ("Upload failed: " ++ payload), log2)
      | .succeeded responseDocumentName opName =>
          let documentName :=
            match responseDocumentName with
            | some dn => dn
            | none => opName.getD ""
          let doc : StoredDocument :=
            { id := parseDocumentId documentName, name := f.name,
              uploadDate := env.nowAt i, size := f.size,
              status := .indexed, metadata := none }
          uploadLoop env store rest (i + 1) (acc ++ [doc]) log2

/-- The value `uploadFilesToLibrary` resolves with. -/
structure UploadResult where
  store : CreateStoreResult
  documents : List StoredDocument

/-- Embedding of `uploadFilesToLibrary` (src/lib/upload.ts lines 70-119):
reject empty batches before any remote work, resolve the store once, upload
the files sequentially, and only after the whole loop finished merge the
produced documents into the cache via upsert; a thrown error propagates
immediately, skipping both the remaining files and the cache merge. -/
def uploadFilesToLibrary (env : UploadEnv) (files : List UploadableFile)
    (st : CacheState) : Except String UploadResult × CacheState × List RemoteCall :=
  if files.length = 0 then
    (.error "Provide at least one file to upload.", st, [])
  else
    match ensureFileSearchStore env.store st [] with
    | (.error e, st2, log) => (.error e, st2, log)
    | (.ok store, st2, log) =>
        match uploadLoop env store files 0 [] log with
        | (.error e, log2) => (.error e, st2, log2)
        | (.ok docs, log2) =>
            let upserted := upsertDocuments st2 docs
            (.ok { store := store, documents := docs }, upserted.1, log2)

/-- Embedding of the validation-then-upload phase of the `uploadFiles`
callback of `useFileUpload` (src/hooks/useFileUpload.ts lines 85-107): no
files is a validation error, an oversized file is a size-limit error naming
the file, both raised before `uploadFilesToLibrary` is invoked (so before
any remote call); otherwise the library upload runs. -/
def uploadFiles (env : UploadEnv) (selectedFiles : List UploadableFile)
    (st : CacheState) : Except String UploadResult × CacheState × List RemoteCall :=
  if selectedFiles.length = 0 then
    (.error "Please pick at least one file.", st, [])
  else
    match findOversizedFile selectedFiles MAX_FILE_SIZE_BYTES with
    | some f =>
        (.error (f.name ++ " exceeds the " ++ Nat.repr (MAX_FILE_SIZE_BYTES / (1024 * 1024))
          ++ " MB limit enforced by Google File Search."), st, [])
    | none => uploadFilesToLibrary env selectedFiles st

/-- A response candidate (vendor type; the fields the source reads). -/
structure Candidate where
  content : Option GenContent
  groundingMetadata : Option GroundingMetadata
  deriving DecidableEq

/-- A generate-content response (vendor type; the fields the source reads). -/
structure GenResponse where
  text : Option String
  candidates : Option (List Candidate)
  deriving DecidableEq

/-- The remote environment of the ask orchestrator: the store-resolver
environment and the response the generation call would return. -/
structure AskEnv where
  store : StoreEnv
  response : GenResponse

/-- The store reference carried in an ask result (name plus optional
display name). -/
structure StoreRef where
  name : String
  displayName : Option String
  deriving DecidableEq

/-- The options of `askLibrary` the embedding models (src/lib/ask.ts
`AskOptions`). -/
structure AskOptions where
  question : String
  conversation : Option (List GenContent)
  history : Option (List GenContent)
  documents : Option (List StoredDocument)
  storeName : Option String
  storeDisplayName : Option String

/-- The value `askLibrary` resolves with (src/lib/ask.ts `AskResult`). -/
structure AskResult where
  answer : Option String
  citations : List CitationEntry
  modelContent : Option GenContent
  metadata : Option GroundingMetadata
  store : StoreRef
  history : List GenContent
  deriving DecidableEq

/-- Embedding of `askLibrary` (src/lib/ask.ts lines 49-96): reject a blank
question before any remote work; resolve the store (or accept a pre-resolved
truthy store name); build the request history; invoke generation; derive the
answer, the citations (against the supplied or cached document list) and the
result record. -/
def askLibrary (env : AskEnv) (o : AskOptions) (st : CacheState) :
    Except String AskResult × CacheState × List RemoteCall :=
  let trimmedQuestion := jsTrim o.question
  if trimmedQuestion = "" then
    (.error "A question is required to query the Great Library.", st, [])
  else
    let preResolved : Option StoreRef :=
      match o.storeName with
      | some sn => if sn = "" then none else some { name := sn, displayName := o.storeDisplayName }
      | none => none
    let resolved : Except String StoreRef × CacheState × List RemoteCall :=
      match preResolved with
      | some s => (.ok s, st, [])
      | none =>
          match ensureFileSearchStore env.store st [] with
          | (.ok r, st2, log) => (.ok { name := r.name, displayName := r.displayName }, st2, log)
          | (.error e, st2, log) => (.error e, st2, log)
    match resolved with
    | (.error e, st2, log) => (.error e, st2, log)
    | (.ok store, st2, log) =>
        let history :=
          match o.history with
          | some h => h
          | none => (o.conversation.getD []) ++
              [{ role := some "user", parts := some [{ text := some trimmedQuestion }] }]
        let log2 := log ++ [RemoteCall.generate store.name]
        let response := env.response
        let candidate := (response.candidates.getD []).head?
        let answer :=
          (match response.text with
           | some t => some t
           | none => extractText (candidate.bind (fun c => c.content))).map jsTrim
        let documents :=
          match o.documents with
          | some ds => ds
          | none => st2.documents
        let citations := extractCitations (candidate.bind (fun c => c.groundingMetadata)) documents
        (.ok { answer := answer, citations := citations,
               modelContent := candidate.bind (fun c => c.content),
               metadata := candidate.bind (fun c => c.groundingMetadata),
               store := store, history := history }, st2, log2)

/-- Constructor discriminator for upload outcomes. -/
def isSucceededOutcome : FileOutcome → Bool
  | .succeeded _ _ => true
  | _ => false

/-- Constructor discriminator for upload remote calls. -/
def isUploadCall : RemoteCall → Bool
  | .uploadFile _ _ => true
  | _ => false

/-- Constructor discriminator for `Except`. -/
def exceptIsOk {ε α : Type} : Except ε α → Bool
  | .ok _ => true
  | .error _ => false

/-- A persisted blob is malformed when it is missing, unparsable, or parses
to an object whose `documents` field is not an array. -/
def MalformedBlob (b : PersistedBlob) : Prop :=
  b = .missing ∨ b = .unparsable ∨ ∃ sid, b = .parsed sid none

/-- Sample history used by witnesses. -/
def sampleHistory : List GenContent :=
  [{ role := some "user", parts := some [{ text := some "q1" }] },
   { role := some "model", parts := some [{ text := some "a1" }] },
   { role := some "user", parts := some [{ text := some "q2" }] }]

/-- A store-resolver environment whose every remote call rejects. -/
def offlineStoreEnv : StoreEnv :=
  { getStoreResult := .error "offline", listStoresResult := .error "offline",
    createStoreResult := .error "offline", prefDisplayName := "Great Library" }

/-- An ask environment over the offline store with an empty response. -/
def offlineAskEnv : AskEnv :=
  { store := offlineStoreEnv, response := { text := none, candidates := none } }

/-- An upload environment over the offline store whose uploads all reject. -/
def offlineUploadEnv : UploadEnv :=
  { store := offlineStoreEnv, outcomes := fun _ => .uploadThrow "offline",
    nowAt := fun _ => "2026-01-01T00:00:00.000Z" }

/-- The empty cache state. -/
def emptyCache : CacheState := { fileSearchStoreId := none, documents := [] }

/-- Ask options carrying a blank question. -/
def blankQuestionOptions : AskOptions :=
  { question := "   ", conversation := none, history := none,
    documents := none, storeName := none, storeDisplayName := none }

/-- A cache state with a locally cached store id. -/
def cachedStoreCache : CacheState := { fileSearchStoreId := some "s1", documents := [] }

/-- A file one byte over the 100 MiB limit. -/
def bigFile : UploadableFile :=
  { path := "/tmp/big.bin", name := "big.bin", size := 104857601,
    mimeType := "application/octet-stream" }

/-- A file of exactly 100 MiB. -/
def exactFile : UploadableFile :=
  { path := "/tmp/exact.bin", name := "exact.bin", size := 104857600,
    mimeType := "application/octet-stream" }

/-- Concrete non-empty history for the `appendModelResponse` counterexample. -/
def cexHistory : List GenContent :=
  [{ role := some "user", parts := some [{ text := some "q" }] }]

/-- A result with no structured content and a present-but-empty answer. -/
def cexResult : ModelResult := { modelContent := none, answer := some "" }

/-- C4: for every conversation history strictly longer than the window,
`trimConversation` returns exactly the last `maxContextMessages` turns in
their original order (it is the drop of the leading excess, has length
exactly the window, and the history is the dropped front followed by it);
a history that fits the window is returned unchanged. -/
theorem claim_C4 : ∀ (history : List GenContent) (m : Nat),
    (m < history.length →
        trimConversation history m = history.drop (history.length - m)
      ∧ (trimConversation history m).length = m
      ∧ history.take (history.length - m) ++ trimConversation history m = history)
  ∧ (history.length ≤ m → trimConversation history m = history) := by
  intro history m
  constructor
  · intro h
    have hnot : ¬ history.length ≤ m := Nat.not_le.mpr h
    unfold trimConversation
    rw [if_neg hnot]
    refine ⟨rfl, ?_, List.take_append_drop _ _⟩
    rw [List.length_drop]
    omega
  · intro h
    unfold trimConversation
    rw [if_pos h]

/-- Witness for C4 at a three-turn history, with window 2 (longer history)
and window 5 (history fits). -/
theorem claim_C4_witness :
    (2 < sampleHistory.length
      ∧ (trimConversation sampleHistory 2 = sampleHistory.drop (sampleHistory.length - 2)
        ∧ (trimConversation sampleHistory 2).length = 2
        ∧ sampleHistory.take (sampleHistory.length - 2) ++ trimConversation sampleHistory 2
            = sampleHistory))
  ∧ (sampleHistory.length ≤ 5 ∧ trimConversation sampleHistory 5 = sampleHistory) :=
  ⟨⟨by decide, (claim_C4 sampleHistory 2).1 (by decide)⟩,
   ⟨by decide, (claim_C4 sampleHistory 5).2 (by decide)⟩⟩

/-- C6: for every malformed persisted blob (missing, unparsable, or parsed
with a non-array `documents` field), the cache read path returns the empty
document list, and the read is total (it never propagates an error). -/
theorem claim_C6 : ∀ (b : PersistedBlob), MalformedBlob b → getDocuments b = [] := by
  intro b h
  rcases h with h | h | ⟨sid, h⟩ <;> subst h <;> rfl

/-- Witness for C6 at the unparsable blob. -/
theorem claim_C6_witness :
    MalformedBlob .unparsable ∧ getDocuments .unparsable = [] :=
  ⟨Or.inr (Or.inl rfl), claim_C6 .unparsable (Or.inr (Or.inl rfl))⟩

/-- C7: validation failures are raised before any remote call and leave all
state unchanged: a question whose trimmed form is empty makes `askLibrary`
fail with the validation error, with the cache unchanged and an empty
remote-call log (so no generation call); an empty file list makes
`uploadFilesToLibrary` fail with the validation error, with the cache
unchanged and an empty remote-call log. -/
theorem claim_C7 :
    (∀ (env : AskEnv) (o : AskOptions) (st : CacheState),
        jsTrim o.question = "" →
        askLibrary env o st =
          (.error "A question is required to query the Great Library.", st, []))
  ∧ (∀ (env : UploadEnv) (st : CacheState),
        uploadFilesToLibrary env [] st =
          (.error "Provide at least one file to upload.", st, [])) := by
  constructor
  · intro env o st h
    unfold askLibrary
    rw [h]
    rfl
  · intro env st
    rfl

/-- Witness for C7: a whitespace question and the empty file list. -/
theorem claim_C7_witness :
    jsTrim blankQuestionOptions.question = ""
  ∧ askLibrary offlineAskEnv blankQuestionOptions emptyCache =
      (.error "A question is required to query the Great Library.", emptyCache, [])
  ∧ uploadFilesToLibrary offlineUploadEnv [] emptyCache =
      (.error "Provide at least one file to upload.", emptyCache, []) :=
  ⟨by decide,
   claim_C7.1 offlineAskEnv blankQuestionOptions emptyCache (by decide),
   claim_C7.2 offlineUploadEnv emptyCache⟩

/-- Constructor discriminator for store-fetch remote calls. -/
def isGetStoreCall : RemoteCall → Bool
  | .getStore _ => true
  | _ => false

/-- A cache state whose cached store id is the empty string (falsy in the
source). -/
def emptyIdCache : CacheState := { fileSearchStoreId := some "", documents := [] }

/-- C8 (amended): whenever a non-empty store id is cached locally (an empty
cached id is falsy in the source and treated as no cached id),
`ensureFileSearchStore` attempts a remote fetch by the constructed resource
name `fileSearchStores/<cachedId>` (visible in the call log), and if that
fetch fails it succeeds with the cached id and the constructed name instead
of propagating the failure. -/
theorem claim_C8 : ∀ (env : StoreEnv) (st : CacheState) (log : List RemoteCall)
    (cid msg : String),
    st.fileSearchStoreId = some cid →
    cid ≠ "" →
    env.getStoreResult = .error msg →
    ensureFileSearchStore env st log =
      (.ok { id := cid, name := "fileSearchStores/" ++ cid, displayName := none },
       st, log ++ [RemoteCall.getStore ("fileSearchStores/" ++ cid)]) := by
  intro env st log cid msg hc hne hg
  unfold ensureFileSearchStore
  rw [hc]
  show (if cid = "" then ensureStoreViaListOrCreate env st log
        else fetchCachedStore env st log cid) = _
  rw [if_neg hne]
  unfold fetchCachedStore
  rw [hg]

/-- Witness for C8 at a concrete non-empty cached id with a rejecting
fetch. -/
theorem claim_C8_witness :
    cachedStoreCache.fileSearchStoreId = some "s1"
  ∧ ("s1" : String) ≠ ""
  ∧ offlineStoreEnv.getStoreResult = .error "offline"
  ∧ ensureFileSearchStore offlineStoreEnv cachedStoreCache [] =
      (.ok { id := "s1", name := "fileSearchStores/" ++ "s1", displayName := none },
       cachedStoreCache, [] ++ [RemoteCall.getStore ("fileSearchStores/" ++ "s1")]) :=
  ⟨rfl, by decide, rfl,
   claim_C8 offlineStoreEnv cachedStoreCache [] "s1" "offline" rfl (by decide) rfl⟩

/-- Counterexample to C8 as stated: with the empty string cached as store id
(a cached id, but falsy in the source) and a fetch that would fail, the
program attempts no store fetch at all (no `getStore` call is logged) and
does not return the cached id successfully — it falls through to
list-then-create and propagates that failure. -/
theorem claim_C8_cex :
    emptyIdCache.fileSearchStoreId = some ""
  ∧ offlineStoreEnv.getStoreResult = .error "offline"
  ∧ ((ensureFileSearchStore offlineStoreEnv emptyIdCache []).2.2).countP isGetStoreCall = 0
  ∧ exceptIsOk (ensureFileSearchStore offlineStoreEnv emptyIdCache []).1 = false := by
  refine ⟨rfl, rfl, by decide, by decide⟩

/-- C10 (amended): `appendModelResponse` returns an empty history
unchanged; on a non-empty history it appends one turn built from the
structured model content when present, else a synthetic text-only turn when
the answer is present and non-empty; a missing or empty-string answer (which
is falsy in the source) appends no turn.  The result always extends the
input history, which is not mutated. -/
theorem claim_C10 : ∀ (history : List GenContent) (result : ModelResult),
    (history = [] → appendModelResponse history result = history)
  ∧ (history ≠ [] → ∀ mc, result.modelContent = some mc →
        appendModelResponse history result =
          history ++ [{ role := some (mc.role.getD "model"), parts := mc.parts }])
  ∧ (history ≠ [] → result.modelContent = none →
        ∀ a, result.answer = some a → a ≠ "" →
        appendModelResponse history result =
          history ++ [{ role := some "model", parts := some [{ text := some a }] }])
  ∧ (history ≠ [] → result.modelContent = none →
        (result.answer = none ∨ result.answer = some "") →
        appendModelResponse history result = history) := by
  intro history result
  have hlen : history ≠ [] → ¬ history.length = 0 := by
    intro h
    simpa [List.length_eq_zero] using h
  refine ⟨?_, ?_, ?_, ?_⟩
  · intro h
    subst h
    rfl
  · intro h mc hmc
    unfold appendModelResponse
    rw [if_neg (hlen h), hmc]
  · intro h hmc a ha hne
    unfold appendModelResponse
    rw [if_neg (hlen h), hmc, ha]
    simp [hne]
  · intro h hmc hans
    unfold appendModelResponse
    rcases hans with ha | ha
    · rw [if_neg (hlen h), hmc, ha]
    · rw [if_neg (hlen h), hmc, ha]
      simp

/-- Witness for C10 at a non-empty history with structured model content,
with a non-empty answer only, and with no content at all. -/
theorem claim_C10_witness :
    (cexHistory ≠ []
      ∧ appendModelResponse cexHistory
          { modelContent := some { role := none, parts := some [{ text := some "ans" }] },
            answer := some "ans" } =
          cexHistory ++ [{ role := some (((none : Option String)).getD "model"),
                           parts := some [{ text := some "ans" }] }])
  ∧ (cexHistory ≠ []
      ∧ appendModelResponse cexHistory { modelContent := none, answer := some "ans" } =
          cexHistory ++ [{ role := some "model", parts := some [{ text := some "ans" }] }])
  ∧ (cexHistory ≠ []
      ∧ appendModelResponse cexHistory { modelContent := none, answer := none } = cexHistory) :=
  ⟨⟨by decide, (claim_C10 cexHistory _).2.1 (by decide) _ rfl⟩,
   ⟨by decide, (claim_C10 cexHistory _).2.2.1 (by decide) rfl "ans" rfl (by decide)⟩,
   ⟨by decide, (claim_C10 cexHistory _).2.2.2 (by decide) rfl (Or.inl rfl)⟩⟩

/-- Counterexample to C10 as stated: a non-empty history and a result whose
answer is present (`some ""`) but empty and with no structured content; the
claim says a synthetic turn from the answer is appended, yet the source
returns the history with no turn added. -/
theorem claim_C10_cex :
    cexHistory ≠ []
  ∧ cexResult.modelContent = none
  ∧ cexResult.answer.isSome = true
  ∧ appendModelResponse cexHistory cexResult = cexHistory := by
  refine ⟨by decide, rfl, rfl, rfl⟩

/-- C2: whenever some file in the list exceeds the 100 MiB limit,
`findOversizedFile` returns such a file, and the hook-level upload fails
with the size-limit error naming that file, with the cache unchanged and an
empty remote-call log (so before any remote call); when every file is
within the limit (in particular a file of exactly 100 MiB),
`findOversizedFile` rejects nothing. -/
theorem claim_C2 : ∀ (files : List UploadableFile),
    ((∃ f, f ∈ files ∧ MAX_FILE_SIZE_BYTES < f.size) →
        ∃ f, findOversizedFile files MAX_FILE_SIZE_BYTES = some f
          ∧ f ∈ files ∧ MAX_FILE_SIZE_BYTES < f.size
          ∧ ∀ (env : UploadEnv) (st : CacheState),
              uploadFiles env files st =
                (.error (f.name ++ " exceeds the "
                    ++ Nat.repr (MAX_FILE_SIZE_BYTES / (1024 * 1024))
                    ++ " MB limit enforced by Google File Search."), st, []))
  ∧ ((∀ f, f ∈ files → f.size ≤ MAX_FILE_SIZE_BYTES) →
        findOversizedFile files MAX_FILE_SIZE_BYTES = none) := by
  intro files
  constructor
  · rintro ⟨f0, hmem, hsize⟩
    have hne : findOversizedFile files MAX_FILE_SIZE_BYTES ≠ none := by
      unfold findOversizedFile
      rw [Ne, List.find?_eq_none]
      push_neg
      exact ⟨f0, hmem, by simpa using hsize⟩
    obtain ⟨f, hf⟩ := Option.ne_none_iff_exists.mp hne
    have hfind : findOversizedFile files MAX_FILE_SIZE_BYTES = some f := hf.symm
    have hfind' : files.find? (fun f => decide (MAX_FILE_SIZE_BYTES < f.size)) = some f := hfind
    refine ⟨f, hfind, List.mem_of_find?_eq_some hfind',
      by simpa using List.find?_some hfind', ?_⟩
    intro env st
    have hlen : ¬ files.length = 0 := by
      cases files with
      | nil => simp at hmem
      | cons a l => simp
    unfold uploadFiles
    rw [if_neg hlen, hfind]
  · intro hall
    unfold findOversizedFile
    rw [List.find?_eq_none]
    intro x hx
    simpa using Nat.not_lt.mpr (hall x hx)

/-- Witness for C2: a list with a file one byte over the limit is rejected
with the message naming it, and a list whose only file is exactly 100 MiB
passes the size check. -/
theorem claim_C2_witness :
    ((∃ f, f ∈ [bigFile] ∧ MAX_FILE_SIZE_BYTES < f.size)
      ∧ ∃ f, findOversizedFile [bigFile] MAX_FILE_SIZE_BYTES = some f
          ∧ f ∈ [bigFile] ∧ MAX_FILE_SIZE_BYTES < f.size
          ∧ ∀ (env : UploadEnv) (st : CacheState),
              uploadFiles env [bigFile] st =
                (.error (f.name ++ " exceeds the "
                    ++ Nat.repr (MAX_FILE_SIZE_BYTES / (1024 * 1024))
                    ++ " MB limit enforced by Google File Search."), st, []))
  ∧ ((∀ f, f ∈ [exactFile] → f.size ≤ MAX_FILE_SIZE_BYTES)
      ∧ findOversizedFile [exactFile] MAX_FILE_SIZE_BYTES = none) := by
  have hbig : ∃ f, f ∈ [bigFile] ∧ MAX_FILE_SIZE_BYTES < f.size :=
    ⟨bigFile, by decide, by decide⟩
  have hexact : ∀ f, f ∈ [exactFile] → f.size ≤ MAX_FILE_SIZE_BYTES := by
    intro f hf
    have : f = exactFile := by simpa using hf
    subst this
    decide
  exact ⟨⟨hbig, (claim_C2 [bigFile]).1 hbig⟩, ⟨hexact, (claim_C2 [exactFile]).2 hexact⟩⟩

/-- The id projection of a document list. -/
def docIds (l : List StoredDocument) : List String :=
  l.map (fun d => d.id)

theorem docLE_iff (a b : StoredDocument) :
    docLE a b = true ↔ ¬ a.uploadDate < b.uploadDate := by
  simp [docLE]

theorem docLE_trans : ∀ (a b c : StoredDocument),
    docLE a b = true → docLE b c = true → docLE a c = true := by
  intro a b c hab hbc
  rw [docLE_iff] at *
  exact not_lt.mpr (le_trans (not_lt.mp hbc) (not_lt.mp hab))

theorem docLE_total : ∀ (a b : StoredDocument), (docLE a b || docLE b a) = true := by
  intro a b
  simp only [Bool.or_eq_true, docLE_iff]
  rcases lt_or_le a.uploadDate b.uploadDate with h | h
  · exact Or.inr (lt_asymm h)
  · exact Or.inl (not_lt.mpr h)

theorem upsert_sorted (st : CacheState) (newDocs : List StoredDocument) :
    sortedByUploadDateDesc (upsertDocuments st newDocs).2 := by
  unfold upsertDocuments sortedByUploadDateDesc
  exact (List.sorted_mergeSort docLE_trans docLE_total _).imp fun h => (docLE_iff _ _).mp h

theorem mapSet_ids (m : List StoredDocument) (d : StoredDocument) :
    docIds (mapSet m d) = if d.id ∈ docIds m then docIds m else docIds m ++ [d.id] := by
  unfold mapSet docIds
  by_cases h : d.id ∈ m.map (fun e => e.id)
  · have hany : m.any (fun e => decide (e.id = d.id)) = true := by
      rw [List.any_eq_true]
      obtain ⟨e, he, heq⟩ := List.mem_map.mp h
      exact ⟨e, he, by simp [heq]⟩
    rw [if_pos h, if_pos (by simpa using hany), List.map_map]
    apply List.map_congr_left
    intro e _
    by_cases he : e.id = d.id <;> simp [he]
  · have hany : ¬ m.any (fun e => decide (e.id = d.id)) = true := by
      rw [List.any_eq_true]
      rintro ⟨e, he, heq⟩
      exact h (List.mem_map.mpr ⟨e, he, by simpa using heq⟩)
    rw [if_neg h, if_neg (by simpa using hany)]
    simp

theorem mapSet_ids_mem (m : List StoredDocument) (d : StoredDocument) (k : String) :
    k ∈ docIds (mapSet m d) ↔ k ∈ docIds m ∨ k = d.id := by
  rw [mapSet_ids]
  by_cases hm : d.id ∈ docIds m
  · rw [if_pos hm]
    constructor
    · exact Or.inl
    · rintro (h | h)
      · exact h
      · exact h ▸ hm
  · rw [if_neg hm]
    simp

theorem foldl_mapSet_ids_nodup : ∀ (l acc : List StoredDocument),
    (docIds acc).Nodup → (docIds (l.foldl mapSet acc)).Nodup := by
  intro l
  induction l with
  | nil => exact fun acc h => h
  | cons d rest ih =>
      intro acc h
      simp only [List.foldl_cons]
      apply ih
      rw [mapSet_ids]
      by_cases hm : d.id ∈ docIds acc
      · rw [if_pos hm]
        exact h
      · rw [if_neg hm]
        refine List.Nodup.append h (List.nodup_singleton _) ?_
        intro x hx hx2
        rw [List.mem_singleton] at hx2
        subst hx2
        exact hm hx

theorem foldl_mapSet_ids_mem : ∀ (l acc : List StoredDocument) (k : String),
    k ∈ docIds (l.foldl mapSet acc) ↔ k ∈ docIds acc ∨ k ∈ docIds l := by
  intro l
  induction l with
  | nil =>
      intro acc k
      simp [docIds]
  | cons d rest ih =>
      intro acc k
      simp only [List.foldl_cons]
      rw [ih, mapSet_ids_mem]
      simp only [docIds, List.map_cons, List.mem_cons]
      tauto

theorem countP_eq_one_of_nodup_mem : ∀ (l : List String) (k : String),
    l.Nodup → k ∈ l → l.countP (fun s => decide (s = k)) = 1 := by
  intro l k
  induction l with
  | nil =>
      intro _ h
      simp at h
  | cons x xs ih =>
      intro hnd hmem
      rcases List.mem_cons.mp hmem with h | h
      · subst h
        rw [List.countP_cons_of_pos _ _ (by simp)]
        have h0 : xs.countP (fun s => decide (s = k)) = 0 := by
          rw [List.countP_eq_zero]
          intro a ha
          have hne : a ≠ k := by
            intro he
            exact (List.nodup_cons.mp hnd).1 (he ▸ ha)
          simp [hne]
        rw [h0]
      · have hne : x ≠ k := by
          intro he
          subst he
          exact (List.nodup_cons.mp hnd).1 h
        rw [List.countP_cons_of_neg _ _ (by simp [hne])]
        exact ih (List.nodup_cons.mp hnd).2 h

theorem upsert_ids_nodup (st : CacheState) (newDocs : List StoredDocument) :
    (docIds (upsertDocuments st newDocs).2).Nodup := by
  unfold upsertDocuments
  have hperm :
      (docIds (((st.documents ++ newDocs).foldl mapSet []).mergeSort docLE)).Perm
        (docIds ((st.documents ++ newDocs).foldl mapSet [])) :=
    (List.mergeSort_perm _ _).map _
  exact hperm.nodup_iff.mpr (foldl_mapSet_ids_nodup _ [] (by simp [docIds]))

theorem upsert_count (st : CacheState) (newDocs : List StoredDocument)
    (d : StoredDocument) (hd : d ∈ newDocs) :
    (upsertDocuments st newDocs).2.countP (fun e => decide (e.id = d.id)) = 1 := by
  unfold upsertDocuments
  have hcnt : ∀ (l : List StoredDocument),
      l.countP (fun e => decide (e.id = d.id))
        = (docIds l).countP (fun s => decide (s = d.id)) := by
    intro l
    rw [docIds, List.countP_map]
    rfl
  rw [hcnt]
  have hperm :
      (docIds (((st.documents ++ newDocs).foldl mapSet []).mergeSort docLE)).Perm
        (docIds ((st.documents ++ newDocs).foldl mapSet [])) :=
    (List.mergeSort_perm _ _).map _
  rw [hperm.countP_eq]
  apply countP_eq_one_of_nodup_mem
  · exact foldl_mapSet_ids_nodup _ [] (by simp [docIds])
  · rw [foldl_mapSet_ids_mem]
    refine Or.inr ?_
    unfold docIds
    rw [List.map_append]
    exact List.mem_append_right _ (List.mem_map.mpr ⟨d, hd, rfl⟩)

/-- C5: upserting the same record twice, in one call or in two successive
calls, yields a cache holding exactly one record with that id (the written
state and the returned list coincide), and the returned full list is sorted
by `uploadDate` descending. -/
theorem claim_C5 : ∀ (st : CacheState) (d : StoredDocument),
    (upsertDocuments st [d, d]).2.countP (fun e => decide (e.id = d.id)) = 1
  ∧ (upsertDocuments st [d, d]).1.documents = (upsertDocuments st [d, d]).2
  ∧ sortedByUploadDateDesc (upsertDocuments st [d, d]).2
  ∧ (upsertDocuments (upsertDocuments st [d]).1 [d]).2.countP
      (fun e => decide (e.id = d.id)) = 1
  ∧ (upsertDocuments (upsertDocuments st [d]).1 [d]).1.documents
      = (upsertDocuments (upsertDocuments st [d]).1 [d]).2
  ∧ sortedByUploadDateDesc (upsertDocuments (upsertDocuments st [d]).1 [d]).2 :=
  fun st d =>
    ⟨upsert_count st [d, d] d (by simp), rfl, upsert_sorted st [d, d],
     upsert_count _ [d] d (by simp), rfl, upsert_sorted _ [d]⟩

/-- C9 (amended): `upsertDocuments` always leaves the cached ids pairwise
distinct (for every starting state and input); `replaceDocuments` stores its
input verbatim, so it preserves the invariant exactly when the input list
itself has pairwise-distinct ids. -/
theorem claim_C9 : ∀ (st : CacheState) (docs : List StoredDocument),
    (docIds (upsertDocuments st docs).1.documents).Nodup
  ∧ ((docIds docs).Nodup → (docIds (replaceDocuments st docs).documents).Nodup) :=
  fun st docs => ⟨upsert_ids_nodup st docs, fun h => h⟩

/-- Concrete documents for the C9 witness and counterexample: two distinct
records sharing the id "a", and one with id "b". -/
def docA : StoredDocument :=
  { id := "a", name := "x.pdf", uploadDate := "2026-01-01", size := 1,
    status := .indexed, metadata := none }

/-- Second record with the duplicate id "a". -/
def docA2 : StoredDocument :=
  { id := "a", name := "y.pdf", uploadDate := "2026-01-02", size := 2,
    status := .indexed, metadata := none }

/-- A record with id "b". -/
def docB : StoredDocument :=
  { id := "b", name := "z.pdf", uploadDate := "2026-01-03", size := 3,
    status := .indexed, metadata := none }

/-- Witness for C9 at a concrete state and duplicate-free input. -/
theorem claim_C9_witness :
    (docIds (upsertDocuments emptyCache [docA, docB]).1.documents).Nodup
  ∧ (docIds [docA, docB]).Nodup
  ∧ (docIds (replaceDocuments emptyCache [docA, docB]).documents).Nodup :=
  ⟨(claim_C9 emptyCache [docA, docB]).1, by decide,
   (claim_C9 emptyCache [docA, docB]).2 (by decide)⟩

/-- Counterexample to C9 as stated: from a state satisfying the invariant,
`replaceDocuments` applied to an input list with a duplicated id produces a
cache whose ids are not pairwise distinct. -/
theorem claim_C9_cex :
    (docIds emptyCache.documents).Nodup
  ∧ ¬ (docIds (replaceDocuments emptyCache [docA, docA2]).documents).Nodup := by
  constructor
  · decide
  · decide

theorem fetchCached_documents (env : StoreEnv) (st : CacheState) (log : List RemoteCall)
    (cid : String) : (fetchCachedStore env st log cid).2.1.documents = st.documents := by
  unfold fetchCachedStore
  cases hg : env.getStoreResult <;> rfl

theorem ensureViaList_documents (env : StoreEnv) (st : CacheState) (log : List RemoteCall) :
    (ensureStoreViaListOrCreate env st log).2.1.documents = st.documents := by
  unfold ensureStoreViaListOrCreate
  cases hf : findExistingStore env env.prefDisplayName with
  | some ex => simp [hf, setFileSearchStoreId]
  | none =>
      cases hc : env.createStoreResult <;> simp [hf, hc, setFileSearchStoreId]

theorem ensure_documents (env : StoreEnv) (st : CacheState) (log : List RemoteCall) :
    (ensureFileSearchStore env st log).2.1.documents = st.documents := by
  unfold ensureFileSearchStore
  cases hst : st.fileSearchStoreId with
  | some cid =>
      by_cases hcid : cid = ""
      · subst hcid
        exact ensureViaList_documents env st log
      · show (if cid = "" then ensureStoreViaListOrCreate env st log
              else fetchCachedStore env st log cid).2.1.documents = st.documents
        rw [if_neg hcid]
        exact fetchCached_documents env st log cid
  | none => exact ensureViaList_documents env st log

theorem fetchCached_log_count (env : StoreEnv) (st : CacheState) (cid : String) :
    ((fetchCachedStore env st [] cid).2.2).countP isUploadCall = 0 := by
  unfold fetchCachedStore
  cases hg : env.getStoreResult <;>
    simp [isUploadCall, List.countP_cons, List.countP_nil]

theorem ensureViaList_log_count (env : StoreEnv) (st : CacheState) :
    ((ensureStoreViaListOrCreate env st []).2.2).countP isUploadCall = 0 := by
  unfold ensureStoreViaListOrCreate
  cases hf : findExistingStore env env.prefDisplayName with
  | some ex => simp [hf, isUploadCall, List.countP_cons, List.countP_nil]
  | none =>
      cases hc : env.createStoreResult <;>
        simp [hf, hc, isUploadCall, List.countP_cons, List.countP_nil]

theorem ensure_log_count (env : StoreEnv) (st : CacheState) :
    ((ensureFileSearchStore env st []).2.2).countP isUploadCall = 0 := by
  unfold ensureFileSearchStore
  cases hst : st.fileSearchStoreId with
  | some cid =>
      by_cases hcid : cid = ""
      · subst hcid
        exact ensureViaList_log_count env st
      · show ((if cid = "" then ensureStoreViaListOrCreate env st []
              else fetchCachedStore env st [] cid).2.2).countP isUploadCall = 0
        rw [if_neg hcid]
        exact fetchCached_log_count env st cid
  | none => exact ensureViaList_log_count env st

theorem uploadLoop_fail : ∀ (env : UploadEnv) (store : CreateStoreResult) (j : Nat)
    (files : List UploadableFile) (i : Nat) (acc : List StoredDocument)
    (log : List RemoteCall),
    j < files.length →
    (∀ k, k < j → isSucceededOutcome (env.outcomes (i + k)) = true) →
    isSucceededOutcome (env.outcomes (i + j)) = false →
    ∃ e, uploadLoop env store files i acc log =
      (.error e, log ++ (files.take (j + 1)).map
        (fun f => RemoteCall.uploadFile store.name f.path)) := by
  intro env store j
  induction j with
  | zero =>
      intro files i acc log hlt _ hfail
      cases files with
      | nil => simp at hlt
      | cons f rest =>
          rw [Nat.add_zero] at hfail
          simp only [uploadLoop]
          cases ho : env.outcomes i with
          | uploadThrow msg => exact ⟨msg, by simp⟩
          | opError p => exact ⟨"Upload failed: " ++ p, by simp⟩
          | succeeded a b =>
              rw [ho] at hfail
              simp [isSucceededOutcome] at hfail
  | succ j ih =>
      intro files i acc log hlt hsucc hfail
      cases files with
      | nil => simp at hlt
      | cons f rest =>
          have h0 : isSucceededOutcome (env.outcomes i) = true := by
            have := hsucc 0 (Nat.succ_pos j)
            rwa [Nat.add_zero] at this
          cases ho : env.outcomes i with
          | uploadThrow m =>
              rw [ho] at h0
              simp [isSucceededOutcome] at h0
          | opError p =>
              rw [ho] at h0
              simp [isSucceededOutcome] at h0
          | succeeded a b =>
              simp only [uploadLoop, ho]
              rw [show log ++ (List.map (fun f => RemoteCall.uploadFile store.name f.path)
                    (List.take (j + 1 + 1) (f :: rest)))
                  = (log ++ [RemoteCall.uploadFile store.name f.path])
                    ++ (List.map (fun f => RemoteCall.uploadFile store.name f.path)
                      (List.take (j + 1) rest)) by
                simp [List.take_succ_cons]]
              exact ih rest (i + 1) _ _ (by simpa using hlt)
                (fun k hk => by
                  have := hsucc (k + 1) (Nat.succ_lt_succ hk)
                  rwa [show i + (k + 1) = i + 1 + k by omega] at this)
                (by rwa [show i + 1 + j = i + (j + 1) by omega])

/-- C1 (amended): if uploading some file throws (an upload rejection or a
polled operation carrying an error payload), `uploadFilesToLibrary` aborts
the remaining files of the batch — exactly the failing file and its
predecessors are uploaded — and the error propagates with the cache
documents unchanged: the documents produced before the failure are NOT
merged into the Cache Store, because the upsert runs only after a fully
successful batch. -/
theorem claim_C1 : ∀ (env : UploadEnv) (files : List UploadableFile)
    (st : CacheState) (j : Nat),
    j < files.length →
    (∀ k, k < j → isSucceededOutcome (env.outcomes k) = true) →
    isSucceededOutcome (env.outcomes j) = false →
    exceptIsOk (ensureFileSearchStore env.store st []).1 = true →
    ∃ e, (uploadFilesToLibrary env files st).1 = .error e
      ∧ (uploadFilesToLibrary env files st).2.1.documents = st.documents
      ∧ ((uploadFilesToLibrary env files st).2.2).countP isUploadCall = j + 1 := by
  intro env files st j hj hsucc hfail hok
  rcases hres : ensureFileSearchStore env.store st [] with ⟨res, st2, log⟩
  cases res with
  | error e =>
      rw [hres] at hok
      simp [exceptIsOk] at hok
  | ok store =>
      have hdocs : st2.documents = st.documents := by
        have h := ensure_documents env.store st []
        rw [hres] at h
        exact h
      have hcount : log.countP isUploadCall = 0 := by
        have h := ensure_log_count env.store st
        rw [hres] at h
        exact h
      obtain ⟨e, he⟩ := uploadLoop_fail env store j files 0 [] log hj
        (fun k hk => by simpa using hsucc k hk) (by simpa using hfail)
      have hlen : ¬ files.length = 0 := by omega
      have htakelen : ((files.take (j + 1)).map
          (fun f => RemoteCall.uploadFile store.name f.path)).length = j + 1 := by
        rw [List.length_map, List.length_take]
        omega
      have hrun : uploadFilesToLibrary env files st =
          (.error e, st2, log ++ (files.take (j + 1)).map
            (fun f => RemoteCall.uploadFile store.name f.path)) := by
        unfold uploadFilesToLibrary
        rw [if_neg hlen, hres]
        simp only [he]
      refine ⟨e, ?_, ?_, ?_⟩
      · rw [hrun]
      · rw [hrun]
        exact hdocs
      · rw [hrun]
        show (log ++ _).countP isUploadCall = j + 1
        rw [List.countP_append, hcount, Nat.zero_add]
        have hall : ∀ c ∈ (files.take (j + 1)).map
            (fun f => RemoteCall.uploadFile store.name f.path), isUploadCall c = true := by
          intro c hc
          obtain ⟨f, _, hf⟩ := List.mem_map.mp hc
          rw [← hf]
          rfl
        rw [List.countP_eq_length.mpr hall, htakelen]

/-- The environment of the C1 witness and counterexample: the first upload
succeeds and yields document `d1`, every later operation completes with an
error payload. -/
def cexUploadEnv : UploadEnv :=
  { store := offlineStoreEnv,
    outcomes := fun k =>
      if k = 0 then .succeeded (some "fileSearchStores/s1/documents/d1") none
      else .opError "indexing failed",
    nowAt := fun _ => "2026-01-01T00:00:00.000Z" }

/-- The two-file batch of the C1 witness and counterexample. -/
def cexFiles : List UploadableFile :=
  [{ path := "/tmp/a.pdf", name := "a.pdf", size := 10, mimeType := "application/pdf" },
   { path := "/tmp/b.txt", name := "b.txt", size := 1, mimeType := "text/plain" }]

/-- Witness for C1 at the two-file batch whose second upload fails. -/
theorem claim_C1_witness :
    1 < cexFiles.length
  ∧ (∀ k, k < 1 → isSucceededOutcome (cexUploadEnv.outcomes k) = true)
  ∧ isSucceededOutcome (cexUploadEnv.outcomes 1) = false
  ∧ exceptIsOk (ensureFileSearchStore cexUploadEnv.store cachedStoreCache []).1 = true
  ∧ ∃ e, (uploadFilesToLibrary cexUploadEnv cexFiles cachedStoreCache).1 = .error e
      ∧ (uploadFilesToLibrary cexUploadEnv cexFiles cachedStoreCache).2.1.documents
          = cachedStoreCache.documents
      ∧ ((uploadFilesToLibrary cexUploadEnv cexFiles cachedStoreCache).2.2).countP
          isUploadCall = 1 + 1 := by
  have hsucc : ∀ k, k < 1 → isSucceededOutcome (cexUploadEnv.outcomes k) = true := by
    intro k hk
    have hk0 : k = 0 := by omega
    subst hk0
    decide
  exact ⟨by decide, hsucc, by decide, by decide,
    claim_C1 cexUploadEnv cexFiles cachedStoreCache 1 (by decide) hsucc
      (by decide) (by decide)⟩

/-- Counterexample to C1 as stated: in the two-file batch the first file
uploads successfully and the second fails, yet after the failed call the
cache documents are empty — the document produced before the failure is not
recorded, contradicting the claim that it is merged via upsert. -/
theorem claim_C1_cex :
    isSucceededOutcome (cexUploadEnv.outcomes 0) = true
  ∧ isSucceededOutcome (cexUploadEnv.outcomes 1) = false
  ∧ exceptIsOk (uploadFilesToLibrary cexUploadEnv cexFiles cachedStoreCache).1 = false
  ∧ (uploadFilesToLibrary cexUploadEnv cexFiles cachedStoreCache).2.1.documents = [] := by
  refine ⟨by decide, by decide, by decide, by decide⟩

theorem updFn_ids (entries : List CitationEntry) (k : BaseId) (sn : Option String) :
    (entries.map (fun e =>
      if e.id = k ∧ falsyStr e.snippet = true ∧ falsyStr sn = false then
        { e with snippet := sn } else e)).map (fun e => e.id)
      = entries.map (fun e => e.id) := by
  rw [List.map_map]
  apply List.map_congr_left
  intro e _
  by_cases h : (e.id = k ∧ falsyStr e.snippet = true ∧ falsyStr sn = false) <;> simp [h]

theorem fold_extractStep_ids (docs : List StoredDocument) :
    ∀ (chunks : List GroundingChunk) (entries : List CitationEntry) (n : Nat),
    ((chunks.foldl (extractStep docs) (entries, n)).1).map (fun e => e.id)
      = (chunkKeys chunks n).foldl insertKey (entries.map (fun e => e.id)) := by
  intro chunks
  induction chunks with
  | nil =>
      intro entries n
      rfl
  | cons c rest ih =>
      intro entries n
      simp only [List.foldl_cons, chunkKeys]
      cases hc : c.retrievedContext with
      | none =>
          simp only [extractStep, hc]
          exact ih entries n
      | some ctx =>
          simp only [extractStep, hc]
          by_cases hm : (keyOf ctx n).1 ∈ entries.map (fun e => e.id)
          · rw [if_pos hm, ih, updFn_ids, List.foldl_cons]
            have h1 : insertKey (entries.map (fun e => e.id)) (keyOf ctx n).1
                = entries.map (fun e => e.id) := by
              unfold insertKey
              rw [if_pos hm]
            rw [h1]
          · rw [if_neg hm, ih, List.foldl_cons]
            have h1 : insertKey (entries.map (fun e => e.id)) (keyOf ctx n).1
                = entries.map (fun e => e.id) ++ [(keyOf ctx n).1] := by
              unfold insertKey
              rw [if_neg hm]
            rw [h1]
            congr 1
            simp

theorem insertKey_foldl_nodup : ∀ (l ks : List BaseId),
    ks.Nodup → (l.foldl insertKey ks).Nodup := by
  intro l
  induction l with
  | nil => exact fun ks h => h
  | cons k rest ih =>
      intro ks h
      simp only [List.foldl_cons]
      apply ih
      unfold insertKey
      by_cases hm : k ∈ ks
      · rw [if_pos hm]
        exact h
      · rw [if_neg hm]
        refine List.Nodup.append h (List.nodup_singleton _) ?_
        intro x hx hx2
        rw [List.mem_singleton] at hx2
        subst hx2
        exact hm hx

/-- The backfill rule of the extraction loop on one entry's snippet: a later
snippet replaces the current one exactly when the current is falsy and the
new one is truthy (the `!existing.snippet && snippet` update of the
source). -/
def chooseSnippet : Option String → List (Option String) → Option String
  | cur, [] => cur
  | cur, s :: rest =>
      if falsyStr cur = true ∧ falsyStr s = false then chooseSnippet s rest
      else chooseSnippet cur rest

/-- The citation entry the extraction loop creates for a chunk whose key is
new (the `byDocument.set(baseId, ...)` branch of src/lib/ask.ts lines
196-203), given the fresh counter in force at that chunk. -/
def newCitation (docs : List StoredDocument) (ctx : RetrievedContext) (n : Nat) :
    CitationEntry :=
  { id := (keyOf ctx n).1, documentId := resolveDocumentId ctx,
    documentName := citationName docs ctx (resolveDocumentId ctx),
    snippet := snippetOf ctx, uri := ctx.uri }

/-- The snippets of the chunks whose dedup key is `k`, in chunk order,
threading the fresh-UUID counter exactly as the extraction loop does. -/
def keySnippets (k : BaseId) : List GroundingChunk → Nat → List (Option String)
  | [], _ => []
  | c :: rest, n =>
      match c.retrievedContext with
      | none => keySnippets k rest n
      | some ctx =>
          if (keyOf ctx n).1 = k then snippetOf ctx :: keySnippets k rest (keyOf ctx n).2
          else keySnippets k rest (keyOf ctx n).2

theorem chooseSnippet_of_truthy : ∀ (l : List (Option String)) (cur : Option String),
    falsyStr cur = false → chooseSnippet cur l = cur := by
  intro l
  induction l with
  | nil =>
      intro cur h
      rfl
  | cons s rest ih =>
      intro cur h
      unfold chooseSnippet
      rw [if_neg (by simp [h])]
      exact ih cur h

theorem chooseSnippet_find : ∀ (l : List (Option String)) (cur s : Option String),
    (cur :: l).find? (fun sn => !(falsyStr sn)) = some s →
    chooseSnippet cur l = s := by
  intro l
  induction l with
  | nil =>
      intro cur s h
      by_cases hcur : falsyStr cur = false
      · rw [List.find?_cons_of_pos _ (by simp [hcur])] at h
        injection h
      · have hcurT : falsyStr cur = true := by
          revert hcur
          cases falsyStr cur <;> simp
        rw [List.find?_cons_of_neg _ (by simp [hcurT])] at h
        simp at h
  | cons t rest ih =>
      intro cur s h
      by_cases hcur : falsyStr cur = false
      · rw [List.find?_cons_of_pos _ (by simp [hcur])] at h
        injection h with h2
        rw [← h2]
        exact chooseSnippet_of_truthy _ cur hcur
      · have hcurT : falsyStr cur = true := by
          revert hcur
          cases falsyStr cur <;> simp
        rw [List.find?_cons_of_neg _ (by simp [hcurT])] at h
        unfold chooseSnippet
        by_cases ht : falsyStr t = false
        · rw [if_pos ⟨hcurT, ht⟩]
          exact ih t s h
        · have htT : falsyStr t = true := by
            revert ht
            cases falsyStr t <;> simp
          rw [if_neg (by simp [htT])]
          rw [List.find?_cons_of_neg _ (by simp [htT])] at h
          exact ih cur s (by rw [List.find?_cons_of_neg _ (by simp [hcurT])]; exact h)

theorem fold_extractStep_existing (docs : List StoredDocument) :
    ∀ (chunks : List GroundingChunk) (entries : List CitationEntry) (n : Nat)
      (e0 : CitationEntry), e0 ∈ entries →
    { e0 with snippet := chooseSnippet e0.snippet (keySnippets e0.id chunks n) }
      ∈ (chunks.foldl (extractStep docs) (entries, n)).1 := by
  intro chunks
  induction chunks with
  | nil =>
      intro entries n e0 h
      exact h
  | cons c rest ih =>
      intro entries n e0 h
      simp only [List.foldl_cons]
      cases hc : c.retrievedContext with
      | none =>
          simp only [extractStep, hc, keySnippets]
          exact ih entries n e0 h
      | some ctx =>
          simp only [extractStep, hc, keySnippets]
          by_cases hm : (keyOf ctx n).1 ∈ entries.map (fun e => e.id)
          · rw [if_pos hm]
            by_cases hke : (keyOf ctx n).1 = e0.id
            · rw [if_pos hke]
              by_cases hcond : falsyStr e0.snippet = true ∧ falsyStr (snippetOf ctx) = false
              · rw [show chooseSnippet e0.snippet
                      (snippetOf ctx :: keySnippets e0.id rest (keyOf ctx n).2)
                    = chooseSnippet (snippetOf ctx) (keySnippets e0.id rest (keyOf ctx n).2) from by
                  simp only [chooseSnippet]
                  rw [if_pos hcond]]
                have hmem : ({ e0 with snippet := snippetOf ctx } : CitationEntry) ∈
                    entries.map (fun e =>
                      if e.id = (keyOf ctx n).1 ∧ falsyStr e.snippet = true
                          ∧ falsyStr (snippetOf ctx) = false then
                        { e with snippet := snippetOf ctx } else e) :=
                  List.mem_map.mpr ⟨e0, h, by rw [if_pos ⟨hke.symm, hcond.1, hcond.2⟩]⟩
                exact ih _ (keyOf ctx n).2 _ hmem
              · rw [show chooseSnippet e0.snippet
                      (snippetOf ctx :: keySnippets e0.id rest (keyOf ctx n).2)
                    = chooseSnippet e0.snippet (keySnippets e0.id rest (keyOf ctx n).2) from by
                  simp only [chooseSnippet]
                  rw [if_neg hcond]]
                have hmem : e0 ∈ entries.map (fun e =>
                    if e.id = (keyOf ctx n).1 ∧ falsyStr e.snippet = true
                        ∧ falsyStr (snippetOf ctx) = false then
                      { e with snippet := snippetOf ctx } else e) :=
                  List.mem_map.mpr ⟨e0, h, by
                    rw [if_neg (fun hx => hcond ⟨hx.2.1, hx.2.2⟩)]⟩
                exact ih _ (keyOf ctx n).2 e0 hmem
            · rw [if_neg hke]
              have hmem : e0 ∈ entries.map (fun e =>
                  if e.id = (keyOf ctx n).1 ∧ falsyStr e.snippet = true
                      ∧ falsyStr (snippetOf ctx) = false then
                    { e with snippet := snippetOf ctx } else e) :=
                List.mem_map.mpr ⟨e0, h, by
                  rw [if_neg (fun hx => hke hx.1.symm)]⟩
              exact ih _ (keyOf ctx n).2 e0 hmem
          · rw [if_neg hm]
            have hke : ¬ (keyOf ctx n).1 = e0.id := fun hx =>
              hm (by rw [hx]; exact List.mem_map_of_mem _ h)
            rw [if_neg hke]
            exact ih _ (keyOf ctx n).2 e0 (List.mem_append_left _ h)

theorem fold_extractStep_new (docs : List StoredDocument) :
    ∀ (chunks : List GroundingChunk) (entries : List CitationEntry) (n : Nat)
      (e : CitationEntry),
    (entries.map (fun x => x.id)).Nodup →
    e ∈ (chunks.foldl (extractStep docs) (entries, n)).1 →
    e.id ∉ entries.map (fun x => x.id) →
    ∃ s0 tail, keySnippets e.id chunks n = s0 :: tail
      ∧ e.snippet = chooseSnippet s0 tail := by
  intro chunks
  induction chunks with
  | nil =>
      intro entries n e _ hmem hnot
      exact absurd (List.mem_map_of_mem _ hmem) hnot
  | cons c rest ih =>
      intro entries n e hnd hmem hnot
      rw [List.foldl_cons] at hmem
      cases hc : c.retrievedContext with
      | none =>
          have hstep : extractStep docs (entries, n) c = (entries, n) := by
            simp only [extractStep, hc]
          rw [hstep] at hmem
          have hres := ih entries n e hnd hmem hnot
          rw [show keySnippets e.id (c :: rest) n = keySnippets e.id rest n from by
            simp only [keySnippets, hc]]
          exact hres
      | some ctx =>
          by_cases hm : (keyOf ctx n).1 ∈ entries.map (fun x => x.id)
          · have hstep : extractStep docs (entries, n) c =
                (entries.map (fun x =>
                  if x.id = (keyOf ctx n).1 ∧ falsyStr x.snippet = true
                      ∧ falsyStr (snippetOf ctx) = false then
                    { x with snippet := snippetOf ctx } else x), (keyOf ctx n).2) := by
              simp only [extractStep, hc]
              rw [if_pos hm]
            rw [hstep] at hmem
            have hke : ¬ (keyOf ctx n).1 = e.id := fun hx => hnot (by rw [← hx]; exact hm)
            have hnd2 : ((entries.map (fun x =>
                if x.id = (keyOf ctx n).1 ∧ falsyStr x.snippet = true
                    ∧ falsyStr (snippetOf ctx) = false then
                  { x with snippet := snippetOf ctx } else x)).map (fun x => x.id)).Nodup := by
              rw [updFn_ids]
              exact hnd
            have hnot2 : e.id ∉ (entries.map (fun x =>
                if x.id = (keyOf ctx n).1 ∧ falsyStr x.snippet = true
                    ∧ falsyStr (snippetOf ctx) = false then
                  { x with snippet := snippetOf ctx } else x)).map (fun x => x.id) := by
              rw [updFn_ids]
              exact hnot
            obtain ⟨s0, tail, hks, hcs⟩ := ih _ (keyOf ctx n).2 e hnd2 hmem hnot2
            refine ⟨s0, tail, ?_, hcs⟩
            rw [show keySnippets e.id (c :: rest) n
                = keySnippets e.id rest (keyOf ctx n).2 from by
              simp only [keySnippets, hc]
              rw [if_neg hke]]
            exact hks
          · have hstep : extractStep docs (entries, n) c =
                (entries ++ [newCitation docs ctx n], (keyOf ctx n).2) := by
              simp only [extractStep, hc]
              rw [if_neg hm]
              rfl
            rw [hstep] at hmem
            have hndApp : ((entries ++ [newCitation docs ctx n]).map
                (fun x => x.id)).Nodup := by
              rw [List.map_append]
              refine List.Nodup.append hnd (by simp) ?_
              intro x hx hx2
              simp [newCitation] at hx2
              subst hx2
              exact hm hx
            by_cases hke : e.id = (keyOf ctx n).1
            · have hA := fold_extractStep_existing docs rest
                (entries ++ [newCitation docs ctx n]) (keyOf ctx n).2
                (newCitation docs ctx n) (List.mem_append_right _ (by simp))
              have hfnodup : (((rest.foldl (extractStep docs)
                  (entries ++ [newCitation docs ctx n], (keyOf ctx n).2)).1).map
                    (fun x => x.id)).Nodup := by
                rw [fold_extractStep_ids docs rest _ (keyOf ctx n).2]
                exact insertKey_foldl_nodup _ _ hndApp
              have heq := List.inj_on_of_nodup_map hfnodup hmem hA (by rw [hke]; rfl)
              refine ⟨snippetOf ctx, keySnippets e.id rest (keyOf ctx n).2, ?_, ?_⟩
              · simp only [keySnippets, hc]
                rw [if_pos hke.symm]
              · have hsnip := congrArg CitationEntry.snippet heq
                rw [hsnip]
                simp only [newCitation]
                rw [hke]
            · have hnot2 : e.id ∉ (entries ++ [newCitation docs ctx n]).map
                  (fun x => x.id) := by
                rw [List.map_append]
                intro hx
                rcases List.mem_append.mp hx with hx | hx
                · exact hnot hx
                · simp [newCitation] at hx
                  exact hke hx
              obtain ⟨s0, tail, hks, hcs⟩ := ih _ (keyOf ctx n).2 e hndApp hmem hnot2
              refine ⟨s0, tail, ?_, hcs⟩
              rw [show keySnippets e.id (c :: rest) n
                  = keySnippets e.id rest (keyOf ctx n).2 from by
                simp only [keySnippets, hc]
                rw [if_neg (fun hx => hke hx.symm)]]
              exact hks

/-- C3: two chunks resolving to the same document id, where only the second
carries a (non-empty) snippet, produce exactly one citation for that
document whose snippet is the second chunk's; in general the citation list
never holds two entries with the same dedup key (same-key chunks are merged
into one citation), the citation keys are exactly the first-appearance
dedup of the chunk key stream, preserving order of first appearance, and
every citation keeps the first non-empty (truthy) snippet encountered among
the chunks with its key, whenever such a snippet exists. -/
theorem claim_C3 :
    (∀ (docs : List StoredDocument) (ctx1 ctx2 : RetrievedContext) (d s : String),
        resolveDocumentId ctx1 = some d →
        resolveDocumentId ctx2 = some d →
        snippetOf ctx1 = none →
        snippetOf ctx2 = some s →
        s ≠ "" →
        ∃ e, extractCitations
            (some { groundingChunks :=
                      some [{ retrievedContext := some ctx1 },
                            { retrievedContext := some ctx2 }] }) docs
            = [e]
          ∧ e.documentId = some d ∧ e.snippet = some s ∧ e.id = BaseId.str d)
  ∧ (∀ (metadata : Option GroundingMetadata) (docs : List StoredDocument),
        ((extractCitations metadata docs).map (fun e => e.id)).Nodup)
  ∧ (∀ (chunks : List GroundingChunk) (docs : List StoredDocument),
        (extractCitations (some { groundingChunks := some chunks }) docs).map
            (fun e => e.id)
          = (chunkKeys chunks 0).foldl insertKey [])
  ∧ (∀ (chunks : List GroundingChunk) (docs : List StoredDocument)
        (e : CitationEntry) (s : Option String),
        e ∈ extractCitations (some { groundingChunks := some chunks }) docs →
        (keySnippets e.id chunks 0).find? (fun sn => !(falsyStr sn)) = some s →
        e.snippet = s) := by
  refine ⟨?_, ?_, ?_, ?_⟩
  · intro docs ctx1 ctx2 d s h1 h2 hs1 hs2 hne
    have hk1 : keyOf ctx1 0 = (BaseId.str d, 0) := by
      unfold keyOf
      rw [h1]
    have hk2 : keyOf ctx2 0 = (BaseId.str d, 0) := by
      unfold keyOf
      rw [h2]
    have step1 : extractStep docs ([], 0) { retrievedContext := some ctx1 } =
        ([{ id := BaseId.str d, documentId := some d,
            documentName := citationName docs ctx1 (some d),
            snippet := none, uri := ctx1.uri }], 0) := by
      simp [extractStep, hk1, h1, hs1]
    have step2 : extractStep docs
        ([{ id := BaseId.str d, documentId := some d,
            documentName := citationName docs ctx1 (some d),
            snippet := none, uri := ctx1.uri }], 0) { retrievedContext := some ctx2 } =
        ([{ id := BaseId.str d, documentId := some d,
            documentName := citationName docs ctx1 (some d),
            snippet := some s, uri := ctx1.uri }], 0) := by
      simp [extractStep, hk2, hs2, falsyStr, hne]
    refine ⟨{ id := BaseId.str d, documentId := some d,
              documentName := citationName docs ctx1 (some d),
              snippet := some s, uri := ctx1.uri }, ?_, rfl, rfl, rfl⟩
    show (List.foldl (extractStep docs) ([], 0)
        [{ retrievedContext := some ctx1 }, { retrievedContext := some ctx2 }]).1 = _
    rw [List.foldl_cons, step1, List.foldl_cons, step2, List.foldl_nil]
  · intro metadata docs
    cases metadata with
    | none => simp [extractCitations]
    | some md =>
        cases hgc : md.groundingChunks with
        | none => simp [extractCitations, hgc]
        | some chunks =>
            cases chunks with
            | nil => simp [extractCitations, hgc]
            | cons c cs =>
                simp only [extractCitations, hgc]
                rw [fold_extractStep_ids docs (c :: cs) [] 0]
                exact insertKey_foldl_nodup _ _ (by simp)
  · intro chunks docs
    unfold extractCitations
    cases chunks with
    | nil => rfl
    | cons c cs =>
        rw [fold_extractStep_ids docs (c :: cs) [] 0]
        rfl
  · intro chunks docs e s hmem hfind
    cases chunks with
    | nil => simp [extractCitations] at hmem
    | cons c cs =>
        have hmem2 : e ∈ ((c :: cs).foldl (extractStep docs) ([], 0)).1 := hmem
        obtain ⟨s0, tail, hks, hcs⟩ :=
          fold_extractStep_new docs (c :: cs) [] 0 e (by simp) hmem2 (by simp)
        rw [hks] at hfind
        rw [hcs]
        exact chooseSnippet_find tail s0 s hfind

/-- First chunk context of the C3 witness: document `d7`, no snippet. -/
def ctxFirst : RetrievedContext :=
  { documentName := some "fileSearchStores/s1/documents/d7", title := none,
    uri := none, text := none, ragChunk := none }

/-- Second chunk context of the C3 witness: document `d7` with a snippet. -/
def ctxSecond : RetrievedContext :=
  { documentName := some "fileSearchStores/s1/documents/d7", title := none,
    uri := none, text := some "relevant passage", ragChunk := none }

/-- The citation entry produced for the two C3 witness chunks. -/
def c3Entry : CitationEntry :=
  { id := BaseId.str "d7", documentId := some "d7", documentName := "d7",
    snippet := some "relevant passage", uri := none }

/-- Witness for C3 at two concrete same-document chunks where only the
second carries a snippet, including an instance of the general
first-truthy-snippet rule at the produced entry. -/
theorem claim_C3_witness :
    resolveDocumentId ctxFirst = some "d7"
  ∧ resolveDocumentId ctxSecond = some "d7"
  ∧ snippetOf ctxFirst = none
  ∧ snippetOf ctxSecond = some "relevant passage"
  ∧ ("relevant passage" : String) ≠ ""
  ∧ (∃ e, extractCitations
        (some { groundingChunks :=
                  some [{ retrievedContext := some ctxFirst },
                        { retrievedContext := some ctxSecond }] }) []
        = [e]
      ∧ e.documentId = some "d7" ∧ e.snippet = some "relevant passage"
      ∧ e.id = BaseId.str "d7")
  ∧ c3Entry ∈ extractCitations
      (some { groundingChunks :=
                some [{ retrievedContext := some ctxFirst },
                      { retrievedContext := some ctxSecond }] }) []
  ∧ (keySnippets c3Entry.id
      [{ retrievedContext := some ctxFirst }, { retrievedContext := some ctxSecond }]
      0).find? (fun sn => !(falsyStr sn)) = some (some "relevant passage")
  ∧ c3Entry.snippet = some "relevant passage" :=
  ⟨by decide, by decide, rfl, rfl, by decide,
   claim_C3.1 [] ctxFirst ctxSecond "d7" "relevant passage"
     (by decide) (by decide) rfl rfl (by decide),
   by decide, by decide,
   claim_C3.2.2.2
     [{ retrievedContext := some ctxFirst }, { retrievedContext := some ctxSecond }]
     [] c3Entry (some "relevant passage") (by decide) (by decide)⟩

end GreatLibrary
